import Mathlib

/-!
# Verification of the RFI dashboard core pipeline (`src/app.py`)

Shallow embedding of the status-classification and statistics pipeline of
`app.py`: `classify_status`, `compute_stats`, and the per-sheet loop of
`render_dashboard`.  Python dynamic values are modelled by `PyVal`; pandas
DataFrames by `DataFrame` (a column-name list plus a row-major grid).
In-place mutation of the caller's DataFrame (`df.columns = ...`,
`df["bucket"] = ...`) is modelled by explicit state passing: `compute_stats`
returns the final state of the input frame alongside the optional stats
record.  Python float division is modelled exactly over `Rat`.
-/

/-- A Python value as it may appear in a spreadsheet cell: text, an integer,
`None`, or a date (rendered by `str` as `YYYY-MM-DD`). -/
inductive PyVal where
  | pstr (s : String)
  | pint (n : Int)
  | pnone
  | pdate (y m d : Nat)
deriving DecidableEq, Repr

/-- Zero-pad a numeral to two digits, as Python's `date.__str__` does. -/
def pad2 (n : Nat) : String :=
  if n < 10 then "0" ++ toString n else toString n

/-- Zero-pad a numeral to four digits, as Python's `date.__str__` does. -/
def pad4 (n : Nat) : String :=
  if n < 10 then "000" ++ toString n
  else if n < 100 then "00" ++ toString n
  else if n < 1000 then "0" ++ toString n
  else toString n

/-- Python's `str()` on the modelled values. -/
def pyStr : PyVal → String
  | .pstr s => s
  | .pint n => toString n
  | .pnone => "None"
  | .pdate y m d => pad4 y ++ "-" ++ pad2 m ++ "-" ++ pad2 d

/-- Python's `str.lower()` on the character range the program uses
(ASCII letters; all other characters, including `✔`, are fixed).
`Char.toLower` performs exactly this basic-latin lowering. -/
def pyLower (l : List Char) : List Char := l.map Char.toLower

/-- Python's `str.strip()`: drop whitespace from both ends. -/
def pyStrip (l : List Char) : List Char :=
  List.rdropWhile Char.isWhitespace (List.dropWhile Char.isWhitespace l)

/-- Is `k` a prefix of `l`?  (Boolean, by direct recursion.) -/
def startsWith : List Char → List Char → Bool
  | [], _ => true
  | _ :: _, [] => false
  | a :: as, b :: bs => a == b && startsWith as bs

/-- Python's substring test `k in s`, over character lists. -/
def containsSub (k : List Char) : List Char → Bool
  | [] => k.isEmpty
  | c :: t => startsWith k (c :: t) || containsSub k t

/-- `CLOSED = ["closed", "done", "completed", "resolved", "final", "✔"]`
(app.py line 71). -/
def CLOSED : List String := ["closed", "done", "completed", "resolved", "final", "✔"]

/-- `INPROG = ["in progress", "wip", "working", "ongoing"]` (app.py line 72). -/
def INPROG : List String := ["in progress", "wip", "working", "ongoing"]

/-- `str(s).lower().strip()` (app.py line 75). -/
def normText (v : PyVal) : List Char := pyStrip (pyLower (pyStr v).data)

/-- `classify_status` (app.py lines 74-78): `s = str(s).lower().strip()`,
then first-match-wins substring containment against `CLOSED`, then
`INPROG`, defaulting to `"Pending"`. -/
def classify_status (v : PyVal) : String :=
  if CLOSED.any (fun k => containsSub k.data (normText v)) then "Closed"
  else if INPROG.any (fun k => containsSub k.data (normText v)) then "In Progress"
  else "Pending"

/-- The CLOSED keyword set as the spec's §4.1 words give it (five keywords,
without `"✔"`).  Stated only to compare with the source's `CLOSED`. -/
def CLOSED_SPEC : List String := ["closed", "done", "completed", "resolved", "final"]

/-- The classifier as the spec's §4.1 words describe it: convert to text,
strip leading/trailing whitespace, remove all non-alphanumeric
non-whitespace characters, lower-case, then first-match-wins substring
containment against `CLOSED_SPEC`, then `INPROG`, defaulting to
`"Pending"`.  Stated only to compare with the source's `classify_status`. -/
def classify_spec (v : PyVal) : String :=
  let s := pyLower (((pyStrip (pyStr v).data)).filter
    (fun c => c.isAlphanum || c.isWhitespace))
  if CLOSED_SPEC.any (fun k => containsSub k.data s) then "Closed"
  else if INPROG.any (fun k => containsSub k.data s) then "In Progress"
  else "Pending"

/-- A pandas DataFrame: ordered column names and row-major cell grid. -/
structure DataFrame where
  cols : List String
  rows : List (List PyVal)
deriving DecidableEq, Repr

/-- A DataFrame is rectangular: every row has one cell per column.
(pandas guarantees this shape; the model states it explicitly.) -/
def DataFrame.Rect (df : DataFrame) : Prop :=
  ∀ r ∈ df.rows, r.length = df.cols.length

instance (df : DataFrame) : Decidable df.Rect := by
  unfold DataFrame.Rect; infer_instance

/-- Index of the first column with the given name, if any. -/
def idxOf? (n : String) : List String → Option Nat
  | [] => none
  | c :: cs => if c = n then some 0 else (idxOf? n cs).map (· + 1)

/-- Column selection `df[n]`: the cell of each row at the first column
named `n` (a missing cell in a ragged row reads as `None`). -/
def DataFrame.col (df : DataFrame) (n : String) : List PyVal :=
  match idxOf? n df.cols with
  | some i => df.rows.map (fun r => r.getD i PyVal.pnone)
  | none => []

/-- Column assignment `df[n] = vals`: overwrite the existing column `n`
in place, or append a new column named `n` at the right edge. -/
def DataFrame.setCol (df : DataFrame) (n : String) (vals : List PyVal) : DataFrame :=
  match idxOf? n df.cols with
  | some i => ⟨df.cols, (df.rows.zip vals).map (fun p => p.1.set i p.2)⟩
  | none => ⟨df.cols ++ [n], (df.rows.zip vals).map (fun p => p.1 ++ [p.2])⟩

/-- `df.columns.str.strip().str.lower()` applied to one name. -/
def colNorm (s : String) : String := String.mk (pyLower (pyStrip s.data))

/-- The record returned by `compute_stats` (app.py lines 97-104). -/
structure Stats where
  df : DataFrame
  total : Nat
  closed : Nat
  prog : Nat
  pending : Nat
  progress : Rat
deriving DecidableEq, Repr

/-- `df.columns = df.columns.str.strip().str.lower()` (app.py line 84):
the frame after its header row is trimmed and lowercased in place. -/
def lowerCols (df : DataFrame) : DataFrame := ⟨df.cols.map colNorm, df.rows⟩

/-- `df["bucket"] = df["status"].apply(classify_status)` (app.py line 89):
the frame after the bucket column of canonical labels is assigned. -/
def bucketed (df : DataFrame) : DataFrame :=
  (lowerCols df).setCol "bucket"
    (((lowerCols df).col "status").map (fun v => PyVal.pstr (classify_status v)))

/-- The stats record built at app.py lines 91-104: `total = len(df)`, the
three bucket counts, and `progress = closed / total if total else 0`. -/
def statsOf (df : DataFrame) : Stats where
  df := bucketed df
  total := (bucketed df).rows.length
  closed := ((bucketed df).col "bucket").countP (fun v => v == PyVal.pstr "Closed")
  prog := ((bucketed df).col "bucket").countP (fun v => v == PyVal.pstr "In Progress")
  pending := ((bucketed df).col "bucket").countP (fun v => v == PyVal.pstr "Pending")
  progress :=
    if (bucketed df).rows.length ≠ 0 then
      (((bucketed df).col "bucket").countP (fun v => v == PyVal.pstr "Closed") : Rat) /
        ((bucketed df).rows.length : Rat)
    else 0

/-- `compute_stats` (app.py lines 83-104).  The first component of the
result is the final state of the caller's DataFrame (the Python code
mutates `df` in place); the second is `None` when no `status` column
exists after header normalization (app.py lines 86-87). -/
def compute_stats (df : DataFrame) : DataFrame × Option Stats :=
  if "status" ∈ (lowerCols df).cols then (bucketed df, some (statsOf df))
  else (lowerCols df, none)

/-- The per-sheet loop of `render_dashboard` (app.py lines 124-128):
sheets whose `compute_stats` is `None` are skipped (`continue`); every
other sheet contributes its stats record, in workbook order. -/
def render_dashboard (sheets : List (String × DataFrame)) : List (String × Stats) :=
  sheets.filterMap (fun p => ((compute_stats p.2).2).map (fun st => (p.1, st)))

/-! ## Classifier lemmas -/

lemma classify_cases (v : PyVal) :
    classify_status v = "Closed" ∨ classify_status v = "In Progress" ∨
      classify_status v = "Pending" := by
  unfold classify_status
  split
  · exact Or.inl rfl
  split
  · exact Or.inr (Or.inl rfl)
  · exact Or.inr (Or.inr rfl)

/-- C4: `classify_status` is total and always lands in the three-label
taxonomy `{Closed, In Progress, Pending}`. -/
theorem classify_total (v : PyVal) :
    classify_status v = "Closed" ∨ classify_status v = "In Progress" ∨
      classify_status v = "Pending" :=
  classify_cases v

/-- C8: the spec's concrete classifier examples, evaluated on the code. -/
theorem classify_examples :
    classify_status (.pstr "✔ Closed") = "Closed" ∧
    classify_status (.pstr "CLOSED") = "Closed" ∧
    classify_status (.pstr "  closed ") = "Closed" ∧
    classify_status (.pstr "Final") = "Closed" ∧
    classify_status (.pstr "Pending Review") = "Pending" ∧
    classify_status .pnone = "Pending" ∧
    classify_status (.pstr "") = "Pending" ∧
    classify_status (.pint 42) = "Pending" ∧
    classify_status (.pstr "In Progress") = "In Progress" := by
  refine ⟨rfl, rfl, rfl, rfl, rfl, rfl, rfl, rfl, rfl⟩

/-- C9: re-classifying the textual form of a canonical label is a no-op. -/
theorem classify_idempotent (v : PyVal) :
    classify_status (.pstr (classify_status v)) = classify_status v := by
  rcases classify_cases v with h | h | h <;> rw [h] <;> rfl

/-! ## Substring machinery -/

lemma startsWith_iff (k l : List Char) :
    startsWith k l = true ↔ ∃ t, l = k ++ t := by
  induction k generalizing l with
  | nil => simp [startsWith]
  | cons a as ih =>
    cases l with
    | nil => simp [startsWith]
    | cons b bs =>
      simp only [startsWith, Bool.and_eq_true, beq_iff_eq, ih]
      constructor
      · rintro ⟨rfl, t, rfl⟩; exact ⟨t, rfl⟩
      · rintro ⟨t, h⟩
        cases h
        exact ⟨rfl, t, rfl⟩

lemma containsSub_nil_left (l : List Char) : containsSub [] l = true := by
  cases l <;> rfl

lemma containsSub_iff (k l : List Char) :
    containsSub k l = true ↔ ∃ a b, l = a ++ k ++ b := by
  induction l with
  | nil =>
    simp only [containsSub, List.isEmpty_iff]
    constructor
    · rintro rfl; exact ⟨[], [], rfl⟩
    · rintro ⟨a, b, h⟩
      rcases List.append_eq_nil.mp h.symm with ⟨h1, h2⟩
      exact (List.append_eq_nil.mp h1).2
  | cons c t ih =>
    simp only [containsSub, Bool.or_eq_true, startsWith_iff, ih]
    constructor
    · rintro (⟨r, hr⟩ | ⟨a, b, hb⟩)
      · exact ⟨[], r, by simp [hr]⟩
      · exact ⟨c :: a, b, by simp [hb]⟩
    · rintro ⟨a, b, hab⟩
      cases a with
      | nil => exact Or.inl ⟨b, by simpa using hab⟩
      | cons a0 as =>
        rcases List.cons.injEq .. ▸ hab with ⟨-, h⟩
        exact Or.inr ⟨as, b, by simpa using h⟩

lemma containsSub_dropWhile (p : Char → Bool) (k l : List Char)
    (hk : ∀ c, k.head? = some c → p c = false)
    (h : containsSub k l = true) :
    containsSub k (l.dropWhile p) = true := by
  induction l with
  | nil => simpa using h
  | cons c t ih =>
    by_cases hp : p c
    · rw [List.dropWhile_cons_of_pos hp]
      rcases Bool.or_eq_true .. ▸ h with hst | hct
      · cases k with
        | nil => exact containsSub_nil_left _
        | cons a as =>
          rcases startsWith_iff .. |>.mp hst with ⟨r, hr⟩
          cases hr
          have hfalse := hk c rfl
          simp [hfalse] at hp
      · exact ih hct
    · rwa [List.dropWhile_cons_of_neg hp]

lemma containsSub_reverse (k l : List Char) :
    containsSub k.reverse l.reverse = true ↔ containsSub k l = true := by
  rw [containsSub_iff, containsSub_iff]
  constructor
  · rintro ⟨a, b, hab⟩
    refine ⟨b.reverse, a.reverse, ?_⟩
    have := congrArg List.reverse hab
    simpa [List.reverse_append, List.append_assoc] using this
  · rintro ⟨a, b, hab⟩
    exact ⟨b.reverse, a.reverse, by simp [hab, List.reverse_append, List.append_assoc]⟩

lemma containsSub_pyStrip (k l : List Char)
    (hhead : ∀ c, k.head? = some c → c.isWhitespace = false)
    (hlast : ∀ c, k.reverse.head? = some c → c.isWhitespace = false)
    (h : containsSub k l = true) :
    containsSub k (pyStrip l) = true := by
  unfold pyStrip List.rdropWhile
  have h1 := containsSub_dropWhile Char.isWhitespace k l hhead h
  have h2 : containsSub k.reverse
      (List.dropWhile Char.isWhitespace l).reverse = true :=
    (containsSub_reverse ..).mpr h1
  have h3 := containsSub_dropWhile Char.isWhitespace k.reverse
    (List.dropWhile Char.isWhitespace l).reverse hlast h2
  have h4 := (containsSub_reverse k
    (List.dropWhile Char.isWhitespace
      (List.dropWhile Char.isWhitespace l).reverse).reverse)
  rw [List.reverse_reverse] at h4
  exact h4.mp h3

/-- C10: any value whose lowered string form contains `"done"` — such as
`"abandoned"` — classifies as Closed: matching is substring containment
with no word-boundary check. -/
theorem classify_done_substring (v : PyVal)
    (h : containsSub "done".data (pyLower (pyStr v).data) = true) :
    classify_status v = "Closed" := by
  have hhead : ∀ c, ("done".data).head? = some c → c.isWhitespace = false := by
    intro c hc
    rw [show ("done".data).head? = some 'd' from rfl] at hc
    cases hc; rfl
  have hlast : ∀ c, ("done".data).reverse.head? = some c → c.isWhitespace = false := by
    intro c hc
    rw [show ("done".data).reverse.head? = some 'e' from rfl] at hc
    cases hc; rfl
  have hd : containsSub "done".data (normText v) = true := by
    unfold normText
    exact containsSub_pyStrip _ _ hhead hlast h
  have hany : CLOSED.any (fun k => containsSub k.data (normText v)) = true :=
    List.any_eq_true.mpr ⟨"done", by decide, hd⟩
  simp [classify_status, hany]

theorem classify_done_substring_witness :
    containsSub "done".data (pyLower (pyStr (.pstr "abandoned")).data) = true ∧
    classify_status (.pstr "abandoned") = "Closed" :=
  ⟨by decide, classify_done_substring _ (by decide)⟩

/-- C3 counterexample: the code does not remove non-alphanumeric
characters and its `CLOSED` list carries `"✔"` as a sixth keyword, so on
the bare input `"✔"` the code yields Closed while the pipeline the claim
describes (strip, remove non-alphanumerics, lowercase, five CLOSED
keywords) yields Pending. -/
theorem classify_spec_divergence :
    classify_status (.pstr "✔") = "Closed" ∧
    classify_spec (.pstr "✔") = "Pending" :=
  ⟨rfl, rfl⟩

/-- C3 amended: `classify_status` converts to text, lowercases, strips
leading/trailing whitespace (removing no other characters), then matches
first-match-wins by substring containment, checking
`CLOSED = {closed, done, completed, resolved, final, ✔}` before
`INPROG = {in progress, wip, working, ongoing}`, and returns Pending
when no keyword matches. -/
theorem classify_amended (v : PyVal) :
    (classify_status v = "Closed" ↔
      ∃ k ∈ CLOSED, containsSub k.data (normText v) = true) ∧
    (classify_status v = "In Progress" ↔
      (∀ k ∈ CLOSED, containsSub k.data (normText v) = false) ∧
      ∃ k ∈ INPROG, containsSub k.data (normText v) = true) ∧
    (classify_status v = "Pending" ↔
      (∀ k ∈ CLOSED, containsSub k.data (normText v) = false) ∧
      ∀ k ∈ INPROG, containsSub k.data (normText v) = false) := by
  by_cases h1 : CLOSED.any (fun k => containsSub k.data (normText v)) = true
  · have hval : classify_status v = "Closed" := by simp [classify_status, h1]
    obtain ⟨k0, hk0, hp0⟩ := List.any_eq_true.mp h1
    refine ⟨⟨fun _ => ⟨k0, hk0, hp0⟩, fun _ => hval⟩, ?_, ?_⟩
    · constructor
      · intro hcon
        rw [hval] at hcon
        exact absurd hcon (by decide)
      · rintro ⟨hall, -⟩
        exact absurd hp0 (by simp [hall k0 hk0])
    · constructor
      · intro hcon
        rw [hval] at hcon
        exact absurd hcon (by decide)
      · rintro ⟨hall, -⟩
        exact absurd hp0 (by simp [hall k0 hk0])
  · have hall1 : ∀ k ∈ CLOSED, containsSub k.data (normText v) = false := by
      intro k hk
      rcases Bool.eq_false_or_eq_true (containsSub k.data (normText v)) with h | h
      · exact absurd (List.any_eq_true.mpr ⟨k, hk, h⟩) h1
      · exact h
    by_cases h2 : INPROG.any (fun k => containsSub k.data (normText v)) = true
    · have hval : classify_status v = "In Progress" := by
        simp [classify_status, h1, h2]
      obtain ⟨k0, hk0, hp0⟩ := List.any_eq_true.mp h2
      refine ⟨?_, ⟨fun _ => ⟨hall1, k0, hk0, hp0⟩, fun _ => hval⟩, ?_⟩
      · constructor
        · intro hcon
          rw [hval] at hcon
          exact absurd hcon (by decide)
        · rintro ⟨k, hk, hp⟩
          exact absurd hp (by simp [hall1 k hk])
      · constructor
        · intro hcon
          rw [hval] at hcon
          exact absurd hcon (by decide)
        · rintro ⟨-, hall⟩
          exact absurd hp0 (by simp [hall k0 hk0])
    · have hall2 : ∀ k ∈ INPROG, containsSub k.data (normText v) = false := by
        intro k hk
        rcases Bool.eq_false_or_eq_true (containsSub k.data (normText v)) with h | h
        · exact absurd (List.any_eq_true.mpr ⟨k, hk, h⟩) h2
        · exact h
      have hval : classify_status v = "Pending" := by
        simp [classify_status, h1, h2]
      refine ⟨?_, ?_, ⟨fun _ => ⟨hall1, hall2⟩, fun _ => hval⟩⟩
      · constructor
        · intro hcon
          rw [hval] at hcon
          exact absurd hcon (by decide)
        · rintro ⟨k, hk, hp⟩
          exact absurd hp (by simp [hall1 k hk])
      · constructor
        · intro hcon
          rw [hval] at hcon
          exact absurd hcon (by decide)
        · rintro ⟨-, k, hk, hp⟩
          exact absurd hp (by simp [hall2 k hk])

/-! ## DataFrame lemmas -/

lemma idxOf?_eq_none_iff (n : String) (cs : List String) :
    idxOf? n cs = none ↔ n ∉ cs := by
  induction cs with
  | nil => simp [idxOf?]
  | cons c cs ih =>
    by_cases h : c = n
    · simp [idxOf?, h]
    · simp [idxOf?, h, Option.map_eq_none', ih, Ne.symm h]

lemma idxOf?_lt {n : String} {cs : List String} {i : Nat}
    (h : idxOf? n cs = some i) : i < cs.length := by
  induction cs generalizing i with
  | nil => simp [idxOf?] at h
  | cons c cs ih =>
    by_cases hc : c = n
    · simp [idxOf?, hc] at h
      have hi : i = 0 := by omega
      subst hi
      simp
    · simp only [idxOf?, if_neg hc, Option.map_eq_some'] at h
      obtain ⟨j, hj, rfl⟩ := h
      have := ih hj
      simp only [List.length_cons]
      omega

lemma idxOf?_mem {n : String} {cs : List String} {i : Nat}
    (h : idxOf? n cs = some i) : n ∈ cs := by
  by_contra hmem
  rw [(idxOf?_eq_none_iff n cs).mpr hmem] at h
  cases h

lemma idxOf?_append_self (n : String) (cs : List String) (h : n ∉ cs) :
    idxOf? n (cs ++ [n]) = some cs.length := by
  induction cs with
  | nil => simp [idxOf?]
  | cons c cs ih =>
    have hc : c ≠ n := by
      rintro rfl
      exact h (List.mem_cons_self ..)
    simp [idxOf?, hc, ih (fun hm => h (List.mem_cons_of_mem _ hm))]

lemma idxOf?_append_left {n : String} {cs : List String} {i : Nat}
    (ds : List String) (h : idxOf? n cs = some i) :
    idxOf? n (cs ++ ds) = some i := by
  induction cs generalizing i with
  | nil => simp [idxOf?] at h
  | cons c cs ih =>
    by_cases hc : c = n
    · simp only [idxOf?, if_pos hc] at h ⊢
      exact h
    · simp only [idxOf?, if_neg hc, Option.map_eq_some'] at h
      obtain ⟨j, hj, rfl⟩ := h
      simp only [List.cons_append, idxOf?, if_neg hc, List.append_eq, ih hj,
        Option.map_some']

lemma col_length {df : DataFrame} {n : String} (h : n ∈ df.cols) :
    (df.col n).length = df.rows.length := by
  unfold DataFrame.col
  cases hi : idxOf? n df.cols with
  | none => exact absurd ((idxOf?_eq_none_iff ..).mp hi) (by simp [h])
  | some i => simp

lemma col_nil {df : DataFrame} (n : String) (h : df.rows = []) :
    df.col n = [] := by
  unfold DataFrame.col
  cases idxOf? n df.cols <;> simp [h]

lemma mem_setCol_cols (df : DataFrame) (n : String) (vals : List PyVal) :
    n ∈ (df.setCol n vals).cols := by
  unfold DataFrame.setCol
  cases hi : idxOf? n df.cols with
  | none => simp
  | some i => simpa using idxOf?_mem hi

lemma setCol_rows_length (df : DataFrame) (n : String) (vals : List PyVal)
    (h : vals.length = df.rows.length) :
    (df.setCol n vals).rows.length = df.rows.length := by
  unfold DataFrame.setCol
  cases idxOf? n df.cols <;> simp [List.length_zip, h]

lemma map_zip_eq_right {α β : Type} (f : α × β → β) :
    ∀ (l1 : List α) (l2 : List β), l1.length = l2.length →
      (∀ p ∈ l1.zip l2, f p = p.2) → (l1.zip l2).map f = l2
  | [], [], _, _ => rfl
  | [], _ :: _, h, _ => by simp at h
  | _ :: _, [], h, _ => by simp at h
  | a :: l1, b :: l2, h, hf => by
    simp only [List.zip_cons_cons, List.map_cons]
    rw [hf (a, b) (List.mem_cons_self ..)]
    exact congrArg _ (map_zip_eq_right f l1 l2 (by simpa using h)
      (fun p hp => hf p (List.mem_cons_of_mem _ hp)))

lemma map_zip_eq_map_left {α β γ : Type} (f : α × β → γ) (g : α → γ) :
    ∀ (l1 : List α) (l2 : List β), l1.length = l2.length →
      (∀ p ∈ l1.zip l2, f p = g p.1) → (l1.zip l2).map f = l1.map g
  | [], [], _, _ => rfl
  | [], _ :: _, h, _ => by simp at h
  | _ :: _, [], h, _ => by simp at h
  | a :: l1, b :: l2, h, hf => by
    simp only [List.zip_cons_cons, List.map_cons]
    rw [hf (a, b) (List.mem_cons_self ..)]
    exact congrArg _ (map_zip_eq_map_left f g l1 l2 (by simpa using h)
      (fun p hp => hf p (List.mem_cons_of_mem _ hp)))

lemma col_setCol_self (df : DataFrame) (n : String) (vals : List PyVal)
    (hr : df.Rect) (hl : vals.length = df.rows.length) :
    (df.setCol n vals).col n = vals := by
  unfold DataFrame.setCol
  cases hi : idxOf? n df.cols with
  | some i =>
    have hlt : i < df.cols.length := idxOf?_lt hi
    unfold DataFrame.col
    simp only [hi, List.map_map]
    apply map_zip_eq_right _ _ _ hl.symm
    rintro ⟨r, v⟩ hp
    have hrlen : r.length = df.cols.length := hr r (List.of_mem_zip hp).1
    simp only [Function.comp_apply, List.getD_eq_getElem?_getD]
    rw [List.getElem?_set_self (by omega)]
    rfl
  | none =>
    have hmem : n ∉ df.cols := (idxOf?_eq_none_iff ..).mp hi
    unfold DataFrame.col
    simp only [idxOf?_append_self n df.cols hmem, List.map_map]
    apply map_zip_eq_right _ _ _ hl.symm
    rintro ⟨r, v⟩ hp
    have hrlen : r.length = df.cols.length := hr r (List.of_mem_zip hp).1
    simp only [Function.comp_apply, List.getD_eq_getElem?_getD]
    rw [← hrlen, List.getElem?_concat_length]
    rfl

lemma countP_three (l : List PyVal)
    (h : ∀ x ∈ l, x = PyVal.pstr "Closed" ∨ x = PyVal.pstr "In Progress" ∨
      x = PyVal.pstr "Pending") :
    l.countP (fun v => v == PyVal.pstr "Closed") +
      l.countP (fun v => v == PyVal.pstr "In Progress") +
      l.countP (fun v => v == PyVal.pstr "Pending") = l.length := by
  induction l with
  | nil => rfl
  | cons a t ih =>
    have ht := ih (fun x hx => h x (List.mem_cons_of_mem _ hx))
    rcases h a (List.mem_cons_self ..) with rfl | rfl | rfl
    · simp only [List.countP_cons, List.length_cons,
        show (PyVal.pstr "Closed" == PyVal.pstr "Closed") = true from rfl,
        show (PyVal.pstr "Closed" == PyVal.pstr "In Progress") = false from rfl,
        show (PyVal.pstr "Closed" == PyVal.pstr "Pending") = false from rfl,
        if_true, Bool.false_eq_true, if_false]
      omega
    · simp only [List.countP_cons, List.length_cons,
        show (PyVal.pstr "In Progress" == PyVal.pstr "Closed") = false from rfl,
        show (PyVal.pstr "In Progress" == PyVal.pstr "In Progress") = true from rfl,
        show (PyVal.pstr "In Progress" == PyVal.pstr "Pending") = false from rfl,
        if_true, Bool.false_eq_true, if_false]
      omega
    · simp only [List.countP_cons, List.length_cons,
        show (PyVal.pstr "Pending" == PyVal.pstr "Closed") = false from rfl,
        show (PyVal.pstr "Pending" == PyVal.pstr "In Progress") = false from rfl,
        show (PyVal.pstr "Pending" == PyVal.pstr "Pending") = true from rfl,
        if_true, Bool.false_eq_true, if_false]
      omega

/-! ## compute_stats lemmas -/

lemma compute_stats_neg {df : DataFrame} (hs : "status" ∉ df.cols.map colNorm) :
    compute_stats df = (lowerCols df, none) := by
  unfold compute_stats
  rw [if_neg]
  simpa [lowerCols] using hs

lemma compute_stats_pos {df : DataFrame} (hs : "status" ∈ df.cols.map colNorm) :
    compute_stats df = (bucketed df, some (statsOf df)) := by
  unfold compute_stats
  rw [if_pos]
  simpa [lowerCols] using hs

lemma buckets_length {df : DataFrame} (hs : "status" ∈ df.cols.map colNorm) :
    (((lowerCols df).col "status").map
      (fun v => PyVal.pstr (classify_status v))).length = df.rows.length := by
  rw [List.length_map]
  exact col_length (by simpa [lowerCols] using hs)

lemma bucketed_rows_length {df : DataFrame} (hs : "status" ∈ df.cols.map colNorm) :
    (bucketed df).rows.length = df.rows.length := by
  unfold bucketed
  have hv : (((lowerCols df).col "status").map
      (fun v => PyVal.pstr (classify_status v))).length = (lowerCols df).rows.length :=
    buckets_length hs
  rw [setCol_rows_length _ _ _ hv]
  rfl

lemma lowerCols_Rect {df : DataFrame} (hr : df.Rect) : (lowerCols df).Rect := by
  intro r hrr
  simpa [lowerCols] using hr r hrr

lemma bucket_col {df : DataFrame} (hr : df.Rect)
    (hs : "status" ∈ df.cols.map colNorm) :
    (bucketed df).col "bucket" =
      ((lowerCols df).col "status").map (fun v => PyVal.pstr (classify_status v)) := by
  unfold bucketed
  exact col_setCol_self _ _ _ (lowerCols_Rect hr) (buckets_length hs)

/-- C1: whenever `compute_stats` yields a stats record, the three bucket
counts partition the rows: `closed + prog + pending = total`. -/
theorem stats_partition (df d : DataFrame) (st : Stats) (hr : df.Rect)
    (h : compute_stats df = (d, some st)) :
    st.closed + st.prog + st.pending = st.total ∧ st.total = df.rows.length := by
  by_cases hs : "status" ∈ df.cols.map colNorm
  · rw [compute_stats_pos hs] at h
    obtain ⟨-, hst⟩ := Prod.mk.injEq .. ▸ h
    cases Option.some.inj hst
    refine ⟨?_, bucketed_rows_length hs⟩
    show ((bucketed df).col "bucket").countP _ + ((bucketed df).col "bucket").countP _ +
      ((bucketed df).col "bucket").countP _ = (bucketed df).rows.length
    rw [bucket_col hr hs, countP_three, List.length_map,
      col_length (by simpa [lowerCols] using hs)]
    · exact (bucketed_rows_length hs).symm
    · intro x hx
      obtain ⟨v, -, rfl⟩ := List.mem_map.mp hx
      rcases classify_cases v with hc | hc | hc <;> rw [hc] <;> simp
  · rw [compute_stats_neg hs] at h
    exact absurd (Prod.mk.injEq .. ▸ h).2 (by simp)

theorem stats_partition_witness :
    (⟨["Status"], [[PyVal.pstr "done"], [PyVal.pstr "x"]]⟩ : DataFrame).Rect ∧
    ∃ d st, compute_stats ⟨["Status"], [[PyVal.pstr "done"], [PyVal.pstr "x"]]⟩ = (d, some st) ∧
      st.closed + st.prog + st.pending = st.total ∧ st.total = 2 :=
  ⟨by decide, _, _, rfl,
    stats_partition ⟨["Status"], [[PyVal.pstr "done"], [PyVal.pstr "x"]]⟩ _ _ (by decide) rfl⟩

/-- C2: the progress ratio is `closed / total` for nonempty sheets and
exactly `0` for empty ones; an empty sheet yields all-zero counts, and the
ratio is always a well-defined rational in `[0, 1]` (no division-by-zero
error, NaN, or infinity). -/
theorem stats_progress (df d : DataFrame) (st : Stats)
    (h : compute_stats df = (d, some st)) :
    (0 < st.total → st.progress = (st.closed : Rat) / (st.total : Rat)) ∧
    (st.total = 0 → st.progress = 0 ∧ st.closed = 0 ∧ st.prog = 0 ∧ st.pending = 0) ∧
    0 ≤ st.progress ∧ st.progress ≤ 1 := by
  by_cases hs : "status" ∈ df.cols.map colNorm
  · rw [compute_stats_pos hs] at h
    obtain ⟨-, hst⟩ := Prod.mk.injEq .. ▸ h
    cases Option.some.inj hst
    have hle : ((bucketed df).col "bucket").countP (fun v => v == PyVal.pstr "Closed") ≤
        (bucketed df).rows.length := by
      calc ((bucketed df).col "bucket").countP (fun v => v == PyVal.pstr "Closed") ≤
            ((bucketed df).col "bucket").length := List.countP_le_length _
        _ = (bucketed df).rows.length := col_length (mem_setCol_cols ..)
    simp only [statsOf]
    refine ⟨?_, ?_, ?_, ?_⟩
    · intro hpos
      rw [if_pos (by omega)]
    · intro h0
      have hnil : (bucketed df).rows = [] := List.length_eq_zero.mp h0
      refine ⟨by rw [if_neg (by omega)], ?_, ?_, ?_⟩ <;> rw [col_nil _ hnil] <;> rfl
    · split
      · exact div_nonneg (Nat.cast_nonneg _) (Nat.cast_nonneg _)
      · exact le_refl 0
    · split
      · rename_i hne
        rw [div_le_one (by exact_mod_cast Nat.pos_of_ne_zero hne)]
        exact_mod_cast hle
      · exact zero_le_one
  · rw [compute_stats_neg hs] at h
    exact absurd (Prod.mk.injEq .. ▸ h).2 (by simp)

theorem stats_progress_witness :
    ∃ d st,
      compute_stats ⟨["status"], [[PyVal.pstr "done"], [PyVal.pstr "a"]]⟩ = (d, some st) ∧
      ((0 < st.total → st.progress = (st.closed : Rat) / (st.total : Rat)) ∧
       (st.total = 0 → st.progress = 0 ∧ st.closed = 0 ∧ st.prog = 0 ∧ st.pending = 0) ∧
       0 ≤ st.progress ∧ st.progress ≤ 1) :=
  ⟨_, _, rfl, stats_progress ⟨["status"], [[PyVal.pstr "done"], [PyVal.pstr "a"]]⟩ _ _ rfl⟩

/-- C5: a sheet whose normalized column names lack `status` is skipped
(its `compute_stats` is `None` and `render_dashboard` drops it), while
every other sheet of the workbook still renders its aggregates. -/
theorem sheet_skip (pre post : List (String × DataFrame)) (name : String)
    (df : DataFrame) (hs : "status" ∉ df.cols.map colNorm) :
    (compute_stats df).2 = none ∧
    render_dashboard (pre ++ (name, df) :: post) =
      render_dashboard pre ++ render_dashboard post := by
  have hn : (compute_stats df).2 = none := by rw [compute_stats_neg hs]
  refine ⟨hn, ?_⟩
  unfold render_dashboard
  rw [List.filterMap_append, List.filterMap_cons]
  simp [hn]

theorem sheet_skip_witness :
    "status" ∉ (["rfi id", "owner"] : List String).map colNorm ∧
    (compute_stats ⟨["rfi id", "owner"], [[PyVal.pint 1, PyVal.pstr "a"]]⟩).2 = none ∧
    render_dashboard
        ([("Sheet0", ⟨["status"], [[PyVal.pstr "done"]]⟩)] ++
          ("Bad", ⟨["rfi id", "owner"], [[PyVal.pint 1, PyVal.pstr "a"]]⟩) ::
          [("Sheet2", ⟨["STATUS"], [[PyVal.pstr "wip"]]⟩)]) =
      render_dashboard [("Sheet0", ⟨["status"], [[PyVal.pstr "done"]]⟩)] ++
        render_dashboard [("Sheet2", ⟨["STATUS"], [[PyVal.pstr "wip"]]⟩)] :=
  ⟨by decide, sheet_skip [("Sheet0", ⟨["status"], [[PyVal.pstr "done"]]⟩)]
    [("Sheet2", ⟨["STATUS"], [[PyVal.pstr "wip"]]⟩)] "Bad"
    ⟨["rfi id", "owner"], [[PyVal.pint 1, PyVal.pstr "a"]]⟩ (by decide)⟩

/-! ## Normalization fixed-point lemmas -/

lemma char_toNat_ofNat {n : Nat} (h : n < 55296) : (Char.ofNat n).toNat = n := by
  have hv : n.isValidChar := Or.inl h
  rw [Char.ofNat, dif_pos hv]
  rfl

lemma toLower_toNat_of_upper {c : Char} (h : 65 ≤ c.toNat ∧ c.toNat ≤ 90) :
    (Char.toLower c).toNat = c.toNat + 32 := by
  unfold Char.toLower
  rw [if_pos h]
  exact char_toNat_ofNat (by omega)

lemma toLower_eq_self_of_not_upper {c : Char} (h : ¬(65 ≤ c.toNat ∧ c.toNat ≤ 90)) :
    Char.toLower c = c := by
  unfold Char.toLower
  rw [if_neg h]

lemma toLower_idem (c : Char) :
    Char.toLower (Char.toLower c) = Char.toLower c := by
  by_cases h : 65 ≤ c.toNat ∧ c.toNat ≤ 90
  · have h1 := toLower_toNat_of_upper h
    apply toLower_eq_self_of_not_upper
    rw [h1]
    omega
  · rw [toLower_eq_self_of_not_upper h]
    exact toLower_eq_self_of_not_upper h

lemma isWhitespace_eq_false_of_toNat {c : Char} (h32 : c.toNat ≠ 32)
    (h9 : c.toNat ≠ 9) (h13 : c.toNat ≠ 13) (h10 : c.toNat ≠ 10) :
    c.isWhitespace = false := by
  have hne : ∀ d : Char, c.toNat ≠ d.toNat → ¬(c = d) := by
    rintro d hd rfl
    exact hd rfl
  unfold Char.isWhitespace
  rw [decide_eq_false (hne ' ' h32), decide_eq_false (hne '\t' h9),
    decide_eq_false (hne '\r' h13), decide_eq_false (hne '\n' h10)]
  rfl

lemma isWhitespace_toLower (c : Char) :
    (Char.toLower c).isWhitespace = c.isWhitespace := by
  by_cases h : 65 ≤ c.toNat ∧ c.toNat ≤ 90
  · have h1 := toLower_toNat_of_upper h
    rw [isWhitespace_eq_false_of_toNat (by omega) (by omega) (by omega) (by omega),
      isWhitespace_eq_false_of_toNat (c := c) (by omega) (by omega) (by omega) (by omega)]
  · rw [toLower_eq_self_of_not_upper h]

lemma pyLower_idem (l : List Char) : pyLower (pyLower l) = pyLower l := by
  unfold pyLower
  rw [List.map_map]
  exact List.map_congr_left (fun c _ => toLower_idem c)

lemma dropWhile_pyLower (l : List Char) :
    List.dropWhile Char.isWhitespace (pyLower l) =
      pyLower (List.dropWhile Char.isWhitespace l) := by
  unfold pyLower
  rw [List.dropWhile_map]
  have : Char.isWhitespace ∘ Char.toLower = Char.isWhitespace :=
    funext isWhitespace_toLower
  rw [this]

lemma reverse_pyLower (l : List Char) :
    (pyLower l).reverse = pyLower l.reverse := by
  simp [pyLower]

lemma dropWhile_prefix_self {α : Type} (p : α → Bool) {l₁ l₂ : List α}
    (hpre : l₁ <+: l₂) (h2 : List.dropWhile p l₂ = l₂) :
    List.dropWhile p l₁ = l₁ := by
  rw [List.dropWhile_eq_self_iff] at h2 ⊢
  intro hl
  obtain ⟨t, rfl⟩ := hpre
  have hlen : 0 < (l₁ ++ t).length := by
    rw [List.length_append]
    omega
  have := h2 hlen
  simp only [List.get_eq_getElem] at this ⊢
  rwa [List.getElem_append_left hl] at this

lemma dropWhile_pyStrip (l : List Char) :
    List.dropWhile Char.isWhitespace (pyStrip l) = pyStrip l := by
  unfold pyStrip
  exact dropWhile_prefix_self Char.isWhitespace
    (List.rdropWhile_prefix ..)
    (List.dropWhile_idempotent ..)

lemma pyStrip_pyLower_pyStrip (l : List Char) :
    pyStrip (pyLower (pyStrip l)) = pyLower (pyStrip l) := by
  have h1 : List.dropWhile Char.isWhitespace (pyLower (pyStrip l)) =
      pyLower (pyStrip l) := by
    rw [dropWhile_pyLower, dropWhile_pyStrip]
  have h3 : List.dropWhile Char.isWhitespace (pyStrip l).reverse =
      (pyStrip l).reverse := by
    have hrev : (pyStrip l).reverse =
        List.dropWhile Char.isWhitespace
          (List.dropWhile Char.isWhitespace l).reverse := by
      show (List.rdropWhile Char.isWhitespace
        (List.dropWhile Char.isWhitespace l)).reverse = _
      unfold List.rdropWhile
      rw [List.reverse_reverse]
    rw [hrev]
    exact List.dropWhile_idempotent ..
  have h2 : List.rdropWhile Char.isWhitespace (pyLower (pyStrip l)) =
      pyLower (pyStrip l) := by
    unfold List.rdropWhile
    rw [reverse_pyLower, dropWhile_pyLower, h3, ← reverse_pyLower,
      List.reverse_reverse]
  show List.rdropWhile Char.isWhitespace
    (List.dropWhile Char.isWhitespace (pyLower (pyStrip l))) = _
  rw [h1, h2]

lemma colNorm_idem (s : String) : colNorm (colNorm s) = colNorm s := by
  unfold colNorm
  show String.mk (pyLower (pyStrip (pyLower (pyStrip s.data)))) = _
  rw [pyStrip_pyLower_pyStrip, pyLower_idem]

/-! ## Frame-effect lemmas -/

lemma idxOf?_bucket_none {df : DataFrame} (hb : "bucket" ∉ df.cols.map colNorm) :
    idxOf? "bucket" (lowerCols df).cols = none :=
  (idxOf?_eq_none_iff ..).mpr (by simpa [lowerCols] using hb)

lemma bucketed_cols {df : DataFrame} (hb : "bucket" ∉ df.cols.map colNorm) :
    (bucketed df).cols = df.cols.map colNorm ++ ["bucket"] := by
  unfold bucketed DataFrame.setCol
  rw [idxOf?_bucket_none hb]
  rfl

lemma zip_buckets_length {df : DataFrame} (hs : "status" ∈ df.cols.map colNorm) :
    (lowerCols df).rows.length =
      (((lowerCols df).col "status").map
        (fun v => PyVal.pstr (classify_status v))).length := by
  rw [buckets_length hs]
  rfl

lemma bucketed_rows_take {df : DataFrame} (hr : df.Rect)
    (hb : "bucket" ∉ df.cols.map colNorm) (hs : "status" ∈ df.cols.map colNorm) :
    (bucketed df).rows.map (fun r => r.take df.cols.length) = df.rows := by
  unfold bucketed DataFrame.setCol
  rw [idxOf?_bucket_none hb]
  show (((lowerCols df).rows.zip _).map _).map _ = _
  rw [List.map_map,
    map_zip_eq_map_left _ (fun r => r) _ _ (zip_buckets_length hs) ?_,
    List.map_id']
  · rfl
  · rintro ⟨r, v⟩ hp
    have hrlen : r.length = df.cols.length := by
      simpa [lowerCols] using lowerCols_Rect hr r (List.of_mem_zip hp).1
    exact List.take_left' hrlen

lemma take_rows_self {df : DataFrame} (hr : df.Rect) :
    df.rows.map (fun r => r.take df.cols.length) = df.rows := by
  have : ∀ r ∈ df.rows, r.take df.cols.length = (fun r => r) r := by
    intro r hm
    exact List.take_of_length_le (le_of_eq (hr r hm))
  rw [List.map_congr_left this, List.map_id']

/-- C6 counterexample: `compute_stats` mutates the caller's frame — after
the call the frame's header has been rewritten (and a bucket column
added), so the original table is not preserved. -/
theorem compute_stats_mutates :
    (compute_stats ⟨["Status"], [[PyVal.pstr "Done"]]⟩).1 ≠
      (⟨["Status"], [[PyVal.pstr "Done"]]⟩ : DataFrame) := by
  decide

/-- C6 amended: `compute_stats` mutates its input frame, but in a limited
way: column names are replaced by their trimmed lowercased forms, a
`bucket` column is appended when a `status` column exists (for sheets not
already carrying a normalized `bucket` name), and the original cells and
row order are preserved (each output row restricted to the original
column count equals the input row). -/
theorem compute_stats_frame (df : DataFrame) (hr : df.Rect)
    (hb : "bucket" ∉ df.cols.map colNorm) :
    ((compute_stats df).1.rows.map (fun r => r.take df.cols.length) = df.rows) ∧
    ((compute_stats df).1.cols.take df.cols.length = df.cols.map colNorm) ∧
    ("status" ∈ df.cols.map colNorm →
      (compute_stats df).1.cols = df.cols.map colNorm ++ ["bucket"]) ∧
    ("status" ∉ df.cols.map colNorm →
      (compute_stats df).1 = ⟨df.cols.map colNorm, df.rows⟩) := by
  by_cases hs : "status" ∈ df.cols.map colNorm
  · simp only [compute_stats_pos hs]
    refine ⟨bucketed_rows_take hr hb hs, ?_, fun _ => bucketed_cols hb,
      fun hns => absurd hs hns⟩
    rw [bucketed_cols hb]
    exact List.take_left' (by simp)
  · simp only [compute_stats_neg hs]
    refine ⟨take_rows_self hr, ?_, fun hmem => absurd hmem hs, fun _ => rfl⟩
    show (df.cols.map colNorm).take df.cols.length = df.cols.map colNorm
    exact List.take_of_length_le (by simp)

theorem compute_stats_frame_witness :
    (⟨["Status ", "Owner"], [[PyVal.pstr "Done", PyVal.pstr "a"]]⟩ : DataFrame).Rect ∧
    "bucket" ∉ (["Status ", "Owner"] : List String).map colNorm ∧
    (((compute_stats ⟨["Status ", "Owner"],
        [[PyVal.pstr "Done", PyVal.pstr "a"]]⟩).1.rows.map
          (fun r => r.take (["Status ", "Owner"] : List String).length) =
        [[PyVal.pstr "Done", PyVal.pstr "a"]]) ∧
      ((compute_stats ⟨["Status ", "Owner"],
        [[PyVal.pstr "Done", PyVal.pstr "a"]]⟩).1.cols.take
          (["Status ", "Owner"] : List String).length =
        (["Status ", "Owner"] : List String).map colNorm) ∧
      ("status" ∈ (["Status ", "Owner"] : List String).map colNorm →
        (compute_stats ⟨["Status ", "Owner"],
          [[PyVal.pstr "Done", PyVal.pstr "a"]]⟩).1.cols =
          (["Status ", "Owner"] : List String).map colNorm ++ ["bucket"]) ∧
      ("status" ∉ (["Status ", "Owner"] : List String).map colNorm →
        (compute_stats ⟨["Status ", "Owner"],
          [[PyVal.pstr "Done", PyVal.pstr "a"]]⟩).1 =
          ⟨(["Status ", "Owner"] : List String).map colNorm,
            [[PyVal.pstr "Done", PyVal.pstr "a"]]⟩)) :=
  ⟨by decide, by decide,
    compute_stats_frame ⟨["Status ", "Owner"], [[PyVal.pstr "Done", PyVal.pstr "a"]]⟩
      (by decide) (by decide)⟩

lemma bucketed_status_col {df : DataFrame} (hr : df.Rect)
    (hb : "bucket" ∉ df.cols.map colNorm) (hs : "status" ∈ df.cols.map colNorm) :
    (bucketed df).col "status" = (lowerCols df).col "status" := by
  obtain ⟨i, hi⟩ : ∃ i, idxOf? "status" (lowerCols df).cols = some i := by
    cases hidx : idxOf? "status" (lowerCols df).cols with
    | none =>
      have hmem : ("status" : String) ∈ (lowerCols df).cols := by
        simpa [lowerCols] using hs
      exact absurd hmem ((idxOf?_eq_none_iff ..).mp hidx)
    | some j => exact ⟨j, rfl⟩
  have hlt : i < df.cols.length := by
    have := idxOf?_lt hi
    simpa [lowerCols] using this
  have hi' : idxOf? "status" (df.cols.map colNorm) = some i := hi
  unfold DataFrame.col
  rw [bucketed_cols hb, idxOf?_append_left ["bucket"] hi', hi]
  show (bucketed df).rows.map (fun r => r.getD i PyVal.pnone) =
    (lowerCols df).rows.map (fun r => r.getD i PyVal.pnone)
  unfold bucketed DataFrame.setCol
  rw [idxOf?_bucket_none hb]
  show (((lowerCols df).rows.zip _).map _).map _ = _
  rw [List.map_map]
  apply map_zip_eq_map_left _ _ _ _ (zip_buckets_length hs)
  rintro ⟨r, v⟩ hp
  have hrlen : r.length = df.cols.length := by
    simpa [lowerCols] using lowerCols_Rect hr r (List.of_mem_zip hp).1
  simp only [Function.comp_apply, List.getD_eq_getElem?_getD]
  rw [List.getElem?_append_left (by omega)]

/-- C7 counterexample: the loader does not replace status values in
place.  On a one-row sheet whose status cell is `"DONE"`, the output
status column still holds `"DONE"`, although its canonical label is
`"Closed"` — the labels live in the separate `bucket` column instead. -/
theorem status_not_replaced :
    (compute_stats ⟨["status"], [[PyVal.pstr "DONE"]]⟩).1.col "status" =
      [PyVal.pstr "DONE"] ∧
    classify_status (PyVal.pstr "DONE") = "Closed" ∧
    PyVal.pstr "DONE" ≠ PyVal.pstr "Closed" :=
  ⟨rfl, rfl, by decide⟩

/-- C7 amended: after loading a sheet none of whose column names already
normalizes to `bucket` (on such a sheet `df["bucket"] = ...` would
overwrite that column in place instead of appending one), the `status`
column keeps its original values; the canonical labels are written to a
separate appended `bucket` column; every output column name is
trimmed-lowercase (a fixed point of the header normalization); and row
order and cells are preserved. -/
theorem loader_semantics (df : DataFrame) (hr : df.Rect)
    (hb : "bucket" ∉ df.cols.map colNorm) (hs : "status" ∈ df.cols.map colNorm) :
    (compute_stats df).1.col "status" = (lowerCols df).col "status" ∧
    (compute_stats df).1.col "bucket" =
      ((lowerCols df).col "status").map (fun v => PyVal.pstr (classify_status v)) ∧
    (∀ c ∈ (compute_stats df).1.cols, colNorm c = c) ∧
    (compute_stats df).1.rows.map (fun r => r.take df.cols.length) = df.rows := by
  simp only [compute_stats_pos hs]
  refine ⟨bucketed_status_col hr hb hs, bucket_col hr hs, ?_,
    bucketed_rows_take hr hb hs⟩
  intro c hc
  rw [bucketed_cols hb] at hc
  rcases List.mem_append.mp hc with hc | hc
  · obtain ⟨x, -, rfl⟩ := List.mem_map.mp hc
    exact colNorm_idem x
  · rw [List.mem_singleton.mp hc]
    rfl

theorem loader_semantics_witness :
    (⟨[" STATUS "], [[PyVal.pstr "Done"]]⟩ : DataFrame).Rect ∧
    "bucket" ∉ ([" STATUS "] : List String).map colNorm ∧
    "status" ∈ ([" STATUS "] : List String).map colNorm ∧
    ((compute_stats ⟨[" STATUS "], [[PyVal.pstr "Done"]]⟩).1.col "status" =
        (lowerCols ⟨[" STATUS "], [[PyVal.pstr "Done"]]⟩).col "status" ∧
      (compute_stats ⟨[" STATUS "], [[PyVal.pstr "Done"]]⟩).1.col "bucket" =
        ((lowerCols ⟨[" STATUS "], [[PyVal.pstr "Done"]]⟩).col "status").map
          (fun v => PyVal.pstr (classify_status v)) ∧
      (∀ c ∈ (compute_stats ⟨[" STATUS "], [[PyVal.pstr "Done"]]⟩).1.cols,
        colNorm c = c) ∧
      (compute_stats ⟨[" STATUS "], [[PyVal.pstr "Done"]]⟩).1.rows.map
          (fun r => r.take ([" STATUS "] : List String).length) =
        [[PyVal.pstr "Done"]]) :=
  ⟨by decide, by decide, by decide,
    loader_semantics ⟨[" STATUS "], [[PyVal.pstr "Done"]]⟩
      (by decide) (by decide) (by decide)⟩
